import Mathlib

/-!
Verification of the two-tier cache layer (`app/cache/layer.py`).

The development shallowly embeds the cache subsystem:

* `adjustTtlForPressure` embeds `CacheLayer._adjust_ttl_for_pressure`.
  Python computes `int(base_ttl * 0.8)` with IEEE doubles; for every
  `base_ttl` in the representable range (certainly all values below
  2^50) this equals `base_ttl * 4 / 5` in truncated natural division,
  because the relative error of the double nearest to 0.8 is too small
  to move the product across an integer boundary.  We therefore embed
  it as exact natural arithmetic.
* `setBothLayers`, `setOp`, `getOp`, `deleteOp`, `deletePatternOp`
  embed `_set_both_layers`, `set`, `get`, `delete`, `delete_pattern`.
  Backend (Redis) behaviour during one operation is supplied by an
  `OpEnv` record: whether the client exists and whether each backend
  call raises `RedisError`.  JSON encoding is abstracted by
  `serialize` / `deserialize`: `serialize v = none` models
  `json.dumps` raising `TypeError`/`ValueError` (re-raised by
  `_serialize`), and `deserialize` is total with a raw-string
  fallback, as in `_deserialize`.  The claims under verification do
  not depend on the codec beyond these two facts.
* `guardCheck` embeds `RedisMemoryGuard.check`; the backend reply to
  `redis.info("memory")` is an `Option MemInfo` argument (`none`
  models a raised `RedisError`).
* A small-step machine (`stepCaller`, `MStep`, `MReach`) embeds the
  control flow of `CacheLayer.get` for a single key under the
  repository's cooperative single-threaded scheduling: each suspension
  point of the Python coroutine is a step boundary, and logically
  concurrent callers interleave arbitrarily between steps.  The
  per-key lock is the one returned by `_get_lock_for_key`; within one
  scenario fewer than the registry's 10000 keys are in flight, so all
  callers share one lock object and it is never evicted, which the
  machine models as a single boolean.

The local tier (`cachetools.TTLCache`) is embedded as an association
list without expiry or capacity eviction: every claim under
verification explicitly excludes TTL expiry and eviction from its
scenario.
-/

namespace TwoTier

/-- Cached Python values, abstracted: numbers, strings, and an opaque
value that `json.dumps` cannot encode (models a `TypeError` from
`_serialize`). -/
inductive Val where
  | vnat (n : Nat)
  | vstr (s : String)
  | vbad
deriving DecidableEq

/-- Embeds `CacheLayer._serialize`: `none` models `json.dumps` raising,
which `_serialize` logs and re-raises. -/
def serialize : Val → Option String
  | .vnat n => some (toString n)
  | .vstr s => some s
  | .vbad => none

/-- Embeds `CacheLayer._deserialize`: total, falling back to the raw
string when the payload does not decode. -/
def deserialize (raw : String) : Val :=
  match raw.toNat? with
  | some n => .vnat n
  | none => .vstr raw

/-- Embeds `app/core/config.py` `Settings` (the fields the cache layer
reads), with the source's default values. -/
structure Settings where
  l1_maxsize : Nat := 2048
  l1_ttl_seconds : Nat := 60
  l2_ttl_seconds : Nat := 300
  cache_namespace : String := "appcache:"

/-- Embeds `CacheLayer._l1_key`. -/
def l1Key (cfg : Settings) (key : String) : String :=
  cfg.cache_namespace ++ "l1:" ++ key

/-- Embeds `CacheLayer._l2_key`. -/
def l2Key (cfg : Settings) (key : String) : String :=
  cfg.cache_namespace ++ "l2:" ++ key

/-- Association-list lookup (dictionary read). -/
def alookup {α : Type} (m : List (String × α)) (k : String) : Option α :=
  match m with
  | [] => none
  | (k2, v) :: rest => if k2 == k then some v else alookup rest k

/-- Association-list removal (dictionary `pop` / backend `DELETE`). -/
def aerase {α : Type} (m : List (String × α)) (k : String) : List (String × α) :=
  m.filter (fun p => !(p.1 == k))

/-- Association-list write (dictionary assignment / backend `SET`). -/
def aset {α : Type} (m : List (String × α)) (k : String) (v : α) : List (String × α) :=
  (k, v) :: aerase m k

theorem alookup_aset_self {α : Type} (m : List (String × α)) (k : String) (v : α) :
    alookup (aset m k v) k = some v := by
  simp [aset, alookup]

theorem alookup_aerase_self {α : Type} (m : List (String × α)) (k : String) :
    alookup (aerase m k) k = none := by
  induction m with
  | nil => rfl
  | cons hd tl ih =>
      cases h : (hd.1 == k) with
      | true => simpa [aerase, h] using ih
      | false => simpa [aerase, alookup, h] using ih

/-- Embeds `CacheLayer._adjust_ttl_for_pressure` (with the memory guard
present, as established by `init_cache`).  `int(base_ttl * 0.8)` is
embedded as `base_ttl * 4 / 5`, exact for the whole representable
range (see the file header). -/
def adjustTtlForPressure (level : Nat) (baseTtl : Nat) : Nat :=
  if 9 ≤ level then 0
  else if 7 ≤ level then min baseTtl 60
  else if 5 ≤ level then max (baseTtl * 4 / 5) 1
  else baseTtl

/-- Embeds the Python truthiness idiom `l2_ttl or self._settings.l2_ttl_seconds`
in `_set_both_layers`: `None` and `0` are both falsy, so either selects
the configured default. -/
def ttlOrDefault (l2ttl : Option Nat) (dflt : Nat) : Nat :=
  match l2ttl with
  | none => dflt
  | some t => if t = 0 then dflt else t

/-- The orchestrator's mutable state: both tiers plus the stats
counters of `CacheLayer.stats`.  The shared tier stores the serialized
payload together with the expiry set at write time. -/
structure CacheState where
  l1 : List (String × Val)
  l2 : List (String × (String × Nat))
  l1_hits : Nat
  l2_hits : Nat
  misses : Nat
  errors : Nat
  pressure_skips : Nat
deriving DecidableEq

/-- Backend behaviour during one cache operation: whether `self._redis`
is set (and with it the memory guard, per `init_cache`), the pressure
level the guard reports, and which backend calls raise `RedisError`. -/
structure OpEnv where
  redisPresent : Bool
  level : Nat
  redisGetFails : Bool
  redisSetFails : Bool
  redisDelFails : Bool
deriving DecidableEq

/-- Embeds `CacheLayer._set_both_layers`.  The L1 write happens first,
unconditionally.  The `Except` result is what the Python coroutine
does control-wise: `.error ()` models the serialization exception
propagating to the caller (the surrounding `try` only catches
`RedisError`), `.ok ()` a normal return. -/
def setBothLayers (cfg : Settings) (env : OpEnv) (st : CacheState)
    (key : String) (v : Val) (l2ttl : Option Nat) : CacheState × Except Unit Unit :=
  let st1 := { st with l1 := aset st.l1 (l1Key cfg key) v }
  if env.redisPresent then
    let base := ttlOrDefault l2ttl cfg.l2_ttl_seconds
    let ttl := adjustTtlForPressure env.level base
    if ttl = 0 then
      ({ st1 with pressure_skips := st1.pressure_skips + 1 }, .ok ())
    else
      match serialize v with
      | none => (st1, .error ())
      | some data =>
          if env.redisSetFails then
            ({ st1 with errors := st1.errors + 1 }, .ok ())
          else
            ({ st1 with l2 := aset st1.l2 (l2Key cfg key) (data, ttl) }, .ok ())
  else (st1, .ok ())

/-- Embeds `CacheLayer.set` (on an initialized layer, where
`init_cache` is a no-op). -/
def setOp (cfg : Settings) (env : OpEnv) (st : CacheState)
    (key : String) (v : Val) (l2ttl : Option Nat) : CacheState × Except Unit Unit :=
  setBothLayers cfg env st key v l2ttl

/-- Embeds `CacheLayer.delete`: L1 pop, then unconditional backend
delete with `RedisError` caught and counted.  No pressure level is
consulted anywhere in the source of `delete`. -/
def deleteOp (cfg : Settings) (env : OpEnv) (st : CacheState) (key : String) : CacheState :=
  let st1 := { st with l1 := aerase st.l1 (l1Key cfg key) }
  if env.redisPresent then
    if env.redisDelFails then
      { st1 with errors := st1.errors + 1 }
    else
      { st1 with l2 := aerase st1.l2 (l2Key cfg key) }
  else st1

/-- Result of one `get` call: final state, what the coroutine does for
the caller (`.error ()` = an exception propagates), how many times the
loader was invoked, and whether the per-key lock was entered. -/
structure GetOutcome where
  state : CacheState
  res : Except Unit (Option Val)
  loaderCalls : Nat
  lockUsed : Bool

/-- The critical section of `CacheLayer.get` (inside `async with lock`):
double-check L1, double-check L2 (its `except RedisError` only logs),
then count the miss, invoke the loader, drop `None` results, and
write back through `_set_both_layers`. -/
def getLocked (cfg : Settings) (env : OpEnv) (st : CacheState) (key : String)
    (loaderVal : Option Val) (l2ttl : Option Nat) : GetOutcome :=
  match alookup st.l1 (l1Key cfg key) with
  | some v => ⟨st, .ok (some v), 0, true⟩
  | none =>
    match (if env.redisPresent && !env.redisGetFails
           then alookup st.l2 (l2Key cfg key) else none) with
    | some rawTtl =>
        let v := deserialize rawTtl.1
        ⟨{ st with l1 := aset st.l1 (l1Key cfg key) v }, .ok (some v), 0, true⟩
    | none =>
        let st2 := { st with misses := st.misses + 1 }
        match loaderVal with
        | none => ⟨st2, .ok none, 1, true⟩
        | some v =>
            let p := setBothLayers cfg env st2 key v l2ttl
            ⟨p.1, match p.2 with | .ok _ => .ok (some v) | .error e => .error e, 1, true⟩

/-- Embeds `CacheLayer.get` run to completion by a single caller.
`loaderVal` is what `await loader()` returns when invoked;
`hasLoader = false` models `loader is None`. -/
def getOp (cfg : Settings) (env : OpEnv) (st : CacheState) (key : String)
    (hasLoader : Bool) (loaderVal : Option Val) (l2ttl : Option Nat) : GetOutcome :=
  match alookup st.l1 (l1Key cfg key) with
  | some v => ⟨{ st with l1_hits := st.l1_hits + 1 }, .ok (some v), 0, false⟩
  | none =>
    let stE := if env.redisPresent && env.redisGetFails
               then { st with errors := st.errors + 1 } else st
    match (if env.redisPresent && !env.redisGetFails
           then alookup st.l2 (l2Key cfg key) else none) with
    | some rawTtl =>
        let v := deserialize rawTtl.1
        ⟨{ stE with l2_hits := stE.l2_hits + 1,
                    l1 := aset stE.l1 (l1Key cfg key) v }, .ok (some v), 0, false⟩
    | none =>
        if hasLoader = false then
          ⟨{ stE with misses := stE.misses + 1 }, .ok none, 0, false⟩
        else if env.redisPresent && decide (10 ≤ env.level) then
          ⟨{ stE with pressure_skips := stE.pressure_skips + 1 }, .ok loaderVal, 1, false⟩
        else
          getLocked cfg env stE key loaderVal l2ttl

/-- Backend behaviour for one `delete_pattern` call: whether the client
exists and, optionally, the index of the scan-loop iteration at which a
backend call raises `RedisError` (`none` = no failure). -/
structure PatEnv where
  redisPresent : Bool
  failAt : Option Nat
deriving DecidableEq

/-- One `while True` pass of `CacheLayer.delete_pattern` per recursive
call: a `SCAN ... COUNT 100` over the shared-tier keyspace returning
the next batch of at most 100 keys filtered by the backend's pattern
matcher `matches`, a `DEL` of the matching keys, and accumulation of
`deleted_count`; the cursor comes back 0 exactly when the keyspace is
exhausted.  Returns (remaining entries, final `deleted_count`, whether
a `RedisError` was raised mid-scan). -/
def scanDeleteGo (globMatch : String → Bool) (failAt : Option Nat) (i : Nat)
    (store : List (String × (String × Nat))) (acc : Nat) :
    List (String × (String × Nat)) × Nat × Bool :=
  if failAt = some i then (store, acc, true)
  else if h : store.drop 100 = [] then
    ((store.take 100).filter (fun e => !(globMatch e.1)),
     acc + ((store.take 100).filter (fun e => globMatch e.1)).length, false)
  else
    have hlen : (store.drop 100).length < store.length := by
      have hne : store ≠ [] := by
        intro h0
        exact h (by simp [h0])
      have hpos : 0 < store.length := List.length_pos.mpr hne
      simp only [List.length_drop]
      omega
    let r := scanDeleteGo globMatch failAt (i + 1) (store.drop 100)
      (acc + ((store.take 100).filter (fun e => globMatch e.1)).length)
    ((store.take 100).filter (fun e => !(globMatch e.1)) ++ r.1, r.2.1, r.2.2)
termination_by store.length

/-- Result of `delete_pattern`: remaining shared-tier entries, the
final value of the local `deleted_count`, how much `errors` grew, and
the Python function's return value.  `delete_pattern` has no `return`
statement on any path, so the coroutine always returns `None`. -/
structure PatOutcome where
  store : List (String × (String × Nat))
  counted : Nat
  errorsInc : Nat
  retval : Option Nat
deriving DecidableEq

/-- Embeds `CacheLayer.delete_pattern`.  `globMatch` is the backend's
glob matcher applied to stored (namespaced) keys; the namespaced
pattern built by `_l2_key` is absorbed into it. -/
def deletePatternOp (env : PatEnv) (globMatch : String → Bool)
    (store : List (String × (String × Nat))) : PatOutcome :=
  if env.redisPresent = false then ⟨store, 0, 0, none⟩
  else
    let r := scanDeleteGo globMatch env.failAt 0 store 0
    if r.2.2 then ⟨r.1, r.2.1, 1, none⟩ else ⟨r.1, r.2.1, 0, none⟩

/-- The reply of `redis.info("memory")`, as read by
`RedisMemoryGuard.check`. -/
structure MemInfo where
  used : Nat
  maxm : Nat
  policy : String
deriving DecidableEq

/-- The pressure snapshot dict produced by `RedisMemoryGuard.check`
(the fields the rest of the system reads; `err` marks the safe default
returned from the `except RedisError` branch). -/
structure Snapshot where
  level : Nat
  policy : String
  err : Bool
deriving DecidableEq

/-- The guard's mutable fields `_last_check` and `_cached`. -/
structure GuardState where
  lastCheck : Nat
  cached : Option Snapshot
deriving DecidableEq

/-- Result of one `check()` call: new guard state, the snapshot handed
to the caller, and whether a backend memory query was issued. -/
structure CheckOutcome where
  state : GuardState
  snap : Snapshot
  queried : Bool
deriving DecidableEq

/-- The snapshot built from a successful `INFO memory` reply: level 0
when no memory ceiling is configured, otherwise
`int(min(used/maxmemory * 10, 10))`, embedded as exact arithmetic. -/
def snapshotOf (info : MemInfo) : Snapshot :=
  if info.maxm = 0 then ⟨0, info.policy, false⟩
  else ⟨min (info.used * 10 / info.maxm) 10, info.policy, false⟩

/-- Embeds `RedisMemoryGuard.check`.  `backend = none` models the
memory query raising `RedisError`: the safe default snapshot is
returned and — as in the source — neither `_cached` nor `_last_check`
is updated.  `self._cached` is a non-empty dict whenever set, so its
truthiness test is `Option.isSome`. -/
def guardCheck (interval : Nat) (st : GuardState) (now : Nat)
    (backend : Option MemInfo) : CheckOutcome :=
  if st.cached.isSome ∧ now - st.lastCheck < interval then
    ⟨st, st.cached.getD ⟨0, "", false⟩, false⟩
  else
    match backend with
    | some info =>
        let r := snapshotOf info
        ⟨⟨now, some r⟩, r, true⟩
    | none => ⟨st, ⟨0, "unknown", true⟩, true⟩

/-- Program counter of one logically concurrent `get(key, loader)`
caller, one constructor per region between suspension points of the
coroutine in `CacheLayer.get`:
initial L1 check; L2 `GET`; the pre-lock pressure check; waiting on the
per-key lock; the double checks of L1 and L2 inside the lock; the
loader invocation; the two phases of `_set_both_layers` (L1 write,
then TTL adjustment plus L2 `SET`); and completion carrying the value
returned to that caller. -/
inductive PC where
  | checkL1
  | checkL2
  | pressure
  | waitLock
  | dblL1
  | dblL2
  | load
  | storeL1 (v : Val)
  | storeL2 (v : Val)
  | done (r : Option Val)
deriving DecidableEq

/-- Shared state of the scenario for the single key under test: its L1
and L2 entries, whether its per-key lock (from `_get_lock_for_key`) is
held, the number of loader invocations so far, and the growth of the
`pressure_skips` counter. -/
structure Glob where
  l1 : Option Val
  l2 : Option Val
  lock : Bool
  loads : Nat
  skips : Nat
deriving DecidableEq

/-- Fixed environment of the scenario: the pressure level reported by
the memory guard, the base TTL `l2_ttl or default`, and what
`await loader()` returns.  Backend calls succeed (no `RedisError`),
and the level is held fixed for the scenario's duration, as in the
claims. -/
structure MEnv where
  level : Nat
  baseTtl : Nat
  loaderVal : Option Val
deriving DecidableEq

/-- One atomic step of a single caller of `CacheLayer.get`, between two
suspension points.  `none` means the caller cannot step (it is parked
on the held lock, or finished). -/
def stepCaller (env : MEnv) (g : Glob) : PC → Option (PC × Glob)
  | .checkL1 =>
      match g.l1 with
      | some v => some (.done (some v), g)
      | none => some (.checkL2, g)
  | .checkL2 =>
      match g.l2 with
      | some v => some (.done (some v), { g with l1 := some v })
      | none => some (.pressure, g)
  | .pressure =>
      if 10 ≤ env.level then
        some (.done env.loaderVal, { g with loads := g.loads + 1, skips := g.skips + 1 })
      else
        some (.waitLock, g)
  | .waitLock =>
      if g.lock then none
      else some (.dblL1, { g with lock := true })
  | .dblL1 =>
      match g.l1 with
      | some v => some (.done (some v), { g with lock := false })
      | none => some (.dblL2, g)
  | .dblL2 =>
      match g.l2 with
      | some v => some (.done (some v), { g with l1 := some v, lock := false })
      | none => some (.load, g)
  | .load =>
      match env.loaderVal with
      | none => some (.done none, { g with loads := g.loads + 1, lock := false })
      | some v => some (.storeL1 v, { g with loads := g.loads + 1 })
  | .storeL1 v => some (.storeL2 v, { g with l1 := some v })
  | .storeL2 v =>
      if adjustTtlForPressure env.level env.baseTtl = 0 then
        some (.done (some v), { g with skips := g.skips + 1, lock := false })
      else
        some (.done (some v), { g with l2 := some v, lock := false })
  | .done _ => none

/-- Global state: one program counter per caller index, plus the shared
state. -/
structure MState where
  callers : Nat → PC
  g : Glob

/-- Interleaving semantics with `N` logically concurrent callers: any
caller that can step may step. -/
def MStep (env : MEnv) (N : Nat) (s t : MState) : Prop :=
  ∃ i, i < N ∧ ∃ p, stepCaller env s.g (s.callers i) = some p ∧
    t = ⟨Function.update s.callers i p.1, p.2⟩

/-- Initial state of the scenario: the key absent from both tiers, the
lock free, no loader invocation yet, every caller about to start. -/
def initM : MState :=
  ⟨fun _ => .checkL1, ⟨none, none, false, 0, 0⟩⟩

/-- States reachable under some cooperative schedule of the `N`
callers. -/
def MReach (env : MEnv) (N : Nat) (s : MState) : Prop :=
  Relation.ReflTransGen (MStep env N) initM s

/-- Program counters inside the lock-protected critical section. -/
def inCrit : PC → Bool
  | .dblL1 => true
  | .dblL2 => true
  | .load => true
  | .storeL1 _ => true
  | .storeL2 _ => true
  | _ => false

/-- Program counters a caller can occupy before any write-back has been
started by it. -/
def preStore : PC → Bool
  | .storeL1 _ => false
  | .storeL2 _ => false
  | .done _ => false
  | _ => true

theorem forall_update {P : PC → Prop} (f : Nat → PC) (i : Nat) (a : PC) (N : Nat)
    (hold : ∀ j, j < N → P (f j)) (ha : P a) :
    ∀ j, j < N → P (Function.update f i a j) := by
  intro j hj
  rcases eq_or_ne j i with rfl | hne
  · simpa using ha
  · rw [Function.update_noteq hne]
    exact hold j hj

theorem uniq_update_notCrit (f : Nat → PC) (i : Nat) (a : PC) (N : Nat)
    (hu : ∀ j, j < N → ∀ k, k < N → inCrit (f j) = true → inCrit (f k) = true → j = k)
    (ha : inCrit a = false) :
    ∀ j, j < N → ∀ k, k < N →
      inCrit (Function.update f i a j) = true → inCrit (Function.update f i a k) = true →
      j = k := by
  intro j hj k hk hcj hck
  rcases eq_or_ne j i with rfl | hnej
  · rw [Function.update_same] at hcj
    rw [ha] at hcj
    exact absurd hcj (by simp)
  · rcases eq_or_ne k i with rfl | hnek
    · rw [Function.update_same] at hck
      rw [ha] at hck
      exact absurd hck (by simp)
    · rw [Function.update_noteq hnej] at hcj
      rw [Function.update_noteq hnek] at hck
      exact hu j hj k hk hcj hck

theorem uniq_update_stayCrit (f : Nat → PC) (i : Nat) (a : PC) (N : Nat) (hiN : i < N)
    (hu : ∀ j, j < N → ∀ k, k < N → inCrit (f j) = true → inCrit (f k) = true → j = k)
    (hci : inCrit (f i) = true) :
    ∀ j, j < N → ∀ k, k < N →
      inCrit (Function.update f i a j) = true → inCrit (Function.update f i a k) = true →
      j = k := by
  intro j hj k hk hcj hck
  rcases eq_or_ne j i with rfl | hnej
  · rcases eq_or_ne k j with rfl | hnek
    · rfl
    · rw [Function.update_noteq hnek] at hck
      exact (hu k hk j hj hck hci).symm
  · rw [Function.update_noteq hnej] at hcj
    rcases eq_or_ne k i with rfl | hnek
    · exact hu j hj k hk hcj hci
    · rw [Function.update_noteq hnek] at hck
      exact hu j hj k hk hcj hck

theorem uniq_update_acquire (f : Nat → PC) (i : Nat) (a : PC) (N : Nat)
    (hnone : ∀ j, j < N → inCrit (f j) = false) :
    ∀ j, j < N → ∀ k, k < N →
      inCrit (Function.update f i a j) = true → inCrit (Function.update f i a k) = true →
      j = k := by
  intro j hj k hk hcj hck
  rcases eq_or_ne j i with rfl | hnej
  · rcases eq_or_ne k j with rfl | hnek
    · rfl
    · rw [Function.update_noteq hnek] at hck
      rw [hnone k hk] at hck
      exact absurd hck (by simp)
  · rw [Function.update_noteq hnej] at hcj
    rw [hnone j hj] at hcj
    exact absurd hcj (by simp)

theorem nocrit_after_release (f : Nat → PC) (i : Nat) (a : PC) (N : Nat) (hiN : i < N)
    (hci : inCrit (f i) = true) (ha : inCrit a = false)
    (hu : ∀ j, j < N → ∀ k, k < N → inCrit (f j) = true → inCrit (f k) = true → j = k) :
    ∀ j, j < N → inCrit (Function.update f i a j) = false := by
  intro j hj
  rcases eq_or_ne j i with rfl | hne
  · simpa using ha
  · rw [Function.update_noteq hne]
    cases hcj : inCrit (f j) with
    | false => rfl
    | true => exact absurd (hu j hj i hiN hcj hci) hne

/-- Inductive invariant of the single-flight scenario: pressure level
below 10, loader yielding `some v`, key initially absent from both
tiers.  It ties the tiers to the loader value, the lock to the unique
critical-section occupant, and the loader-invocation count to the
write-back progress. -/
structure InvA (env : MEnv) (v : Val) (N : Nat) (s : MState) : Prop where
  hl1 : ∀ w, s.g.l1 = some w → w = v
  hl2 : ∀ w, s.g.l2 = some w → w = v
  hl2l1 : ∀ w, s.g.l2 = some w → s.g.l1 = some v
  hlock : s.g.lock = false → ∀ i, i < N → inCrit (s.callers i) = false
  huniq : ∀ i, i < N → ∀ j, j < N →
    inCrit (s.callers i) = true → inCrit (s.callers j) = true → i = j
  hdbl : ∀ i, i < N → (s.callers i = .dblL2 ∨ s.callers i = .load) → s.g.l1 = none
  hstv : ∀ i, i < N → ∀ w,
    (s.callers i = .storeL1 w ∨ s.callers i = .storeL2 w) → w = v
  hst2 : ∀ i, i < N → ∀ w, s.callers i = .storeL2 w → s.g.l1 = some v
  hle : s.g.loads ≤ 1
  hz : s.g.loads = 0 → s.g.l1 = none ∧ ∀ i, i < N → preStore (s.callers i) = true
  hone : s.g.loads = 1 →
    s.g.l1 = some v ∨ ∃ i, i < N ∧ ∃ w, s.callers i = .storeL1 w
  hdn : ∀ i, i < N → ∀ r, s.callers i = .done r → r = some v

theorem invA_init (env : MEnv) (v : Val) (N : Nat) : InvA env v N initM := by
  refine ⟨?_, ?_, ?_, ?_, ?_, ?_, ?_, ?_, ?_, ?_, ?_, ?_⟩ <;>
    simp [initM, inCrit, preStore]

theorem invA_step_simple (env : MEnv) (v : Val) (N : Nat) {s : MState}
    (h : InvA env v N s) (i : Nat) (hiN : i < N) (a : PC)
    (ha1 : inCrit a = false) (ha2 : preStore a = true)
    (ha3 : ∀ r, a ≠ .done r)
    (ha4 : ∀ w, a ≠ .storeL1 w ∧ a ≠ .storeL2 w)
    (ha5 : a ≠ .dblL2 ∧ a ≠ .load)
    (hold : ∀ w, s.callers i ≠ .storeL1 w) :
    InvA env v N ⟨Function.update s.callers i a, s.g⟩ := by
  refine ⟨h.hl1, h.hl2, h.hl2l1, ?_, ?_, ?_, ?_, ?_, h.hle, ?_, ?_, ?_⟩ <;> dsimp only
  · intro hlf
    exact forall_update (P := fun pc => inCrit pc = false) _ _ _ _ (h.hlock hlf) ha1
  · exact uniq_update_notCrit _ _ _ _ h.huniq ha1
  · intro j hj hc
    rcases eq_or_ne j i with rfl | hne
    · rw [Function.update_same] at hc
      rcases hc with hc | hc
      · exact absurd hc ha5.1
      · exact absurd hc ha5.2
    · rw [Function.update_noteq hne] at hc
      exact h.hdbl j hj hc
  · intro j hj w hw
    rcases eq_or_ne j i with rfl | hne
    · rw [Function.update_same] at hw
      rcases hw with hw | hw
      · exact absurd hw (ha4 w).1
      · exact absurd hw (ha4 w).2
    · rw [Function.update_noteq hne] at hw
      exact h.hstv j hj w hw
  · intro j hj w hw
    rcases eq_or_ne j i with rfl | hne
    · rw [Function.update_same] at hw
      exact absurd hw (ha4 w).2
    · rw [Function.update_noteq hne] at hw
      exact h.hst2 j hj w hw
  · intro h0
    refine ⟨(h.hz h0).1, forall_update (P := fun pc => preStore pc = true) _ _ _ _ (h.hz h0).2 ha2⟩
  · intro h1
    rcases h.hone h1 with hca | ⟨j, hj, w, hw⟩
    · exact Or.inl hca
    · have hne : j ≠ i := by
        intro he
        rw [he] at hw
        exact hold w hw
      exact Or.inr ⟨j, hj, w, by rw [Function.update_noteq hne]; exact hw⟩
  · intro j hj r hr
    rcases eq_or_ne j i with rfl | hne
    · rw [Function.update_same] at hr
      exact absurd hr (ha3 r)
    · rw [Function.update_noteq hne] at hr
      exact h.hdn j hj r hr

theorem invA_step_stayCrit (env : MEnv) (v : Val) (N : Nat) {s : MState}
    (h : InvA env v N s) (i : Nat) (hiN : i < N) (a : PC)
    (hci : inCrit (s.callers i) = true)
    (ha1 : inCrit a = true) (ha2 : preStore a = true)
    (ha3 : ∀ r, a ≠ .done r)
    (ha4 : ∀ w, a ≠ .storeL1 w ∧ a ≠ .storeL2 w)
    (hl1n : s.g.l1 = none)
    (hold : ∀ w, s.callers i ≠ .storeL1 w) :
    InvA env v N ⟨Function.update s.callers i a, s.g⟩ := by
  refine ⟨h.hl1, h.hl2, h.hl2l1, ?_, ?_, ?_, ?_, ?_, h.hle, ?_, ?_, ?_⟩ <;> dsimp only
  · intro hlf
    have hx := h.hlock hlf i hiN
    rw [hci] at hx
    exact absurd hx (by simp)
  · exact uniq_update_stayCrit _ _ _ _ hiN h.huniq hci
  · intro j hj hc
    rcases eq_or_ne j i with rfl | hne
    · exact hl1n
    · rw [Function.update_noteq hne] at hc
      exact h.hdbl j hj hc
  · intro j hj w hw
    rcases eq_or_ne j i with rfl | hne
    · rw [Function.update_same] at hw
      rcases hw with hw | hw
      · exact absurd hw (ha4 w).1
      · exact absurd hw (ha4 w).2
    · rw [Function.update_noteq hne] at hw
      exact h.hstv j hj w hw
  · intro j hj w hw
    rcases eq_or_ne j i with rfl | hne
    · rw [Function.update_same] at hw
      exact absurd hw (ha4 w).2
    · rw [Function.update_noteq hne] at hw
      exact h.hst2 j hj w hw
  · intro h0
    refine ⟨(h.hz h0).1, forall_update (P := fun pc => preStore pc = true) _ _ _ _ (h.hz h0).2 ha2⟩
  · intro h1
    rcases h.hone h1 with hca | ⟨j, hj, w, hw⟩
    · exact Or.inl hca
    · have hne : j ≠ i := by
        intro he
        rw [he] at hw
        exact hold w hw
      exact Or.inr ⟨j, hj, w, by rw [Function.update_noteq hne]; exact hw⟩
  · intro j hj r hr
    rcases eq_or_ne j i with rfl | hne
    · rw [Function.update_same] at hr
      exact absurd hr (ha3 r)
    · rw [Function.update_noteq hne] at hr
      exact h.hdn j hj r hr

theorem invA_step_doneExit (env : MEnv) (v : Val) (N : Nat) {s : MState}
    (h : InvA env v N s) (i : Nat) (hiN : i < N) (w : Val) (hwv : w = v)
    (g2 : Glob) (hol1 : s.g.l1 = some v) (hg1 : g2.l1 = some v)
    (hg2 : ∀ w2, g2.l2 = some w2 → w2 = v)
    (hlk : g2.lock = false → ∀ j, j < N → j ≠ i → inCrit (s.callers j) = false)
    (hloads : g2.loads = s.g.loads) :
    InvA env v N ⟨Function.update s.callers i (.done (some w)), g2⟩ := by
  refine ⟨?_, hg2, ?_, ?_, ?_, ?_, ?_, ?_, ?_, ?_, ?_, ?_⟩ <;> dsimp only
  · intro w2 hw2
    rw [hg1] at hw2
    injection hw2 with he
    exact he.symm
  · intro w2 _
    exact hg1
  · intro hlf j hj
    rcases eq_or_ne j i with rfl | hne
    · rw [Function.update_same]
      rfl
    · rw [Function.update_noteq hne]
      exact hlk hlf j hj hne
  · exact uniq_update_notCrit _ _ _ _ h.huniq rfl
  · intro j hj hc
    rcases eq_or_ne j i with rfl | hne
    · rw [Function.update_same] at hc
      rcases hc with hc | hc <;> exact PC.noConfusion hc
    · rw [Function.update_noteq hne] at hc
      have hx := h.hdbl j hj hc
      rw [hx] at hol1
      exact Option.noConfusion hol1
  · intro j hj w2 hw2
    rcases eq_or_ne j i with rfl | hne
    · rw [Function.update_same] at hw2
      rcases hw2 with hw2 | hw2 <;> exact PC.noConfusion hw2
    · rw [Function.update_noteq hne] at hw2
      exact h.hstv j hj w2 hw2
  · intro _ _ _ _
    exact hg1
  · rw [hloads]
    exact h.hle
  · intro h0
    rw [hloads] at h0
    have hx := (h.hz h0).1
    rw [hx] at hol1
    exact Option.noConfusion hol1
  · intro _
    exact Or.inl hg1
  · intro j hj r hr
    rcases eq_or_ne j i with rfl | hne
    · rw [Function.update_same] at hr
      injection hr with he
      rw [← he]
      exact congrArg some hwv
    · rw [Function.update_noteq hne] at hr
      exact h.hdn j hj r hr

theorem invA_step (env : MEnv) (v : Val) (N : Nat)
    (hlvl : env.level < 10) (hv : env.loaderVal = some v)
    {s t : MState} (h : InvA env v N s) (hs : MStep env N s t) :
    InvA env v N t := by
  obtain ⟨i, hiN, ⟨pc2, g2⟩, hsc, rfl⟩ := hs
  cases hpc : s.callers i with
  | checkL1 =>
      rw [hpc] at hsc
      cases hl : s.g.l1 with
      | some w =>
          have hwv : w = v := h.hl1 w hl
          have hol1 : s.g.l1 = some v := by rw [hl, hwv]
          simp [stepCaller, hl] at hsc
          obtain ⟨rfl, rfl⟩ := hsc
          exact invA_step_doneExit env v N h i hiN w hwv s.g hol1 hol1 h.hl2
            (fun hlf j hj _ => h.hlock hlf j hj) rfl
      | none =>
          simp [stepCaller, hl] at hsc
          obtain ⟨rfl, rfl⟩ := hsc
          exact invA_step_simple env v N h i hiN .checkL2 rfl rfl
            (fun _ hr => PC.noConfusion hr)
            (fun _ => ⟨fun hr => PC.noConfusion hr, fun hr => PC.noConfusion hr⟩)
            ⟨fun hr => PC.noConfusion hr, fun hr => PC.noConfusion hr⟩
            (fun w0 hw0 => by rw [hpc] at hw0; exact PC.noConfusion hw0)
  | checkL2 =>
      rw [hpc] at hsc
      cases hl : s.g.l2 with
      | some w =>
          have hwv : w = v := h.hl2 w hl
          have hol1 : s.g.l1 = some v := h.hl2l1 w hl
          simp [stepCaller, hl] at hsc
          obtain ⟨rfl, rfl⟩ := hsc
          exact invA_step_doneExit env v N h i hiN w hwv _ hol1
            (congrArg some hwv)
            (fun w2 hw2 => by
              injection hw2 with he
              exact he ▸ hwv)
            (fun hlf j hj _ => h.hlock hlf j hj) rfl
      | none =>
          simp [stepCaller, hl] at hsc
          obtain ⟨rfl, rfl⟩ := hsc
          exact invA_step_simple env v N h i hiN .pressure rfl rfl
            (fun _ hr => PC.noConfusion hr)
            (fun _ => ⟨fun hr => PC.noConfusion hr, fun hr => PC.noConfusion hr⟩)
            ⟨fun hr => PC.noConfusion hr, fun hr => PC.noConfusion hr⟩
            (fun w0 hw0 => by rw [hpc] at hw0; exact PC.noConfusion hw0)
  | pressure =>
      rw [hpc] at hsc
      have h10 : ¬ (10 ≤ env.level) := by omega
      simp [stepCaller, h10] at hsc
      obtain ⟨rfl, rfl⟩ := hsc
      exact invA_step_simple env v N h i hiN .waitLock rfl rfl
        (fun _ hr => PC.noConfusion hr)
        (fun _ => ⟨fun hr => PC.noConfusion hr, fun hr => PC.noConfusion hr⟩)
        ⟨fun hr => PC.noConfusion hr, fun hr => PC.noConfusion hr⟩
        (fun w0 hw0 => by rw [hpc] at hw0; exact PC.noConfusion hw0)
  | waitLock =>
      rw [hpc] at hsc
      cases hlk : s.g.lock with
      | true =>
          simp [stepCaller, hlk] at hsc
      | false =>
          simp [stepCaller, hlk] at hsc
          obtain ⟨rfl, rfl⟩ := hsc
          refine ⟨h.hl1, h.hl2, h.hl2l1, ?_, ?_, ?_, ?_, ?_, h.hle, ?_, ?_, ?_⟩ <;> dsimp only
          · intro hlf
            exact absurd hlf (by simp)
          · exact uniq_update_acquire _ _ _ _ (h.hlock hlk)
          · intro j hj hc
            rcases eq_or_ne j i with rfl | hne
            · rw [Function.update_same] at hc
              rcases hc with hc | hc <;> exact PC.noConfusion hc
            · rw [Function.update_noteq hne] at hc
              exact h.hdbl j hj hc
          · intro j hj w2 hw2
            rcases eq_or_ne j i with rfl | hne
            · rw [Function.update_same] at hw2
              rcases hw2 with hw2 | hw2 <;> exact PC.noConfusion hw2
            · rw [Function.update_noteq hne] at hw2
              exact h.hstv j hj w2 hw2
          · intro j hj w2 hw2
            rcases eq_or_ne j i with rfl | hne
            · rw [Function.update_same] at hw2
              exact PC.noConfusion hw2
            · rw [Function.update_noteq hne] at hw2
              exact h.hst2 j hj w2 hw2
          · intro h0
            refine ⟨(h.hz h0).1,
              forall_update (P := fun pc => preStore pc = true) _ _ _ _ (h.hz h0).2 rfl⟩
          · intro h1
            rcases h.hone h1 with hca | ⟨j, hj, w2, hw2⟩
            · exact Or.inl hca
            · have hne : j ≠ i := by
                intro he
                rw [he, hpc] at hw2
                exact PC.noConfusion hw2
              exact Or.inr ⟨j, hj, w2, by rw [Function.update_noteq hne]; exact hw2⟩
          · intro j hj r hr
            rcases eq_or_ne j i with rfl | hne
            · rw [Function.update_same] at hr
              exact PC.noConfusion hr
            · rw [Function.update_noteq hne] at hr
              exact h.hdn j hj r hr
  | dblL1 =>
      rw [hpc] at hsc
      cases hl : s.g.l1 with
      | some w =>
          have hwv : w = v := h.hl1 w hl
          have hol1 : s.g.l1 = some v := by rw [hl, hwv]
          simp [stepCaller, hl] at hsc
          obtain ⟨rfl, rfl⟩ := hsc
          exact invA_step_doneExit env v N h i hiN w hwv _ hol1
            (congrArg some hwv) h.hl2
            (fun _ j hj hne => by
              cases hcj : inCrit (s.callers j) with
              | false => rfl
              | true =>
                  exact absurd (h.huniq j hj i hiN hcj (by rw [hpc]; rfl)) hne)
            rfl
      | none =>
          simp [stepCaller, hl] at hsc
          obtain ⟨rfl, rfl⟩ := hsc
          exact invA_step_stayCrit env v N h i hiN .dblL2 (by rw [hpc]; rfl) rfl rfl
            (fun _ hr => PC.noConfusion hr)
            (fun _ => ⟨fun hr => PC.noConfusion hr, fun hr => PC.noConfusion hr⟩)
            hl
            (fun w0 hw0 => by rw [hpc] at hw0; exact PC.noConfusion hw0)
  | dblL2 =>
      rw [hpc] at hsc
      cases hl : s.g.l2 with
      | some w =>
          have h1 := h.hdbl i hiN (Or.inl hpc)
          have h2 := h.hl2l1 w hl
          rw [h1] at h2
          exact Option.noConfusion h2
      | none =>
          simp [stepCaller, hl] at hsc
          obtain ⟨rfl, rfl⟩ := hsc
          exact invA_step_stayCrit env v N h i hiN .load (by rw [hpc]; rfl) rfl rfl
            (fun _ hr => PC.noConfusion hr)
            (fun _ => ⟨fun hr => PC.noConfusion hr, fun hr => PC.noConfusion hr⟩)
            (h.hdbl i hiN (Or.inl hpc))
            (fun w0 hw0 => by rw [hpc] at hw0; exact PC.noConfusion hw0)
  | load =>
      rw [hpc] at hsc
      simp [stepCaller, hv] at hsc
      obtain ⟨rfl, rfl⟩ := hsc
      have hle := h.hle
      have h0 : s.g.loads = 0 := by
        by_contra h0
        have h1 : s.g.loads = 1 := by omega
        rcases h.hone h1 with hca | ⟨j, hj, w2, hw2⟩
        · have hx := h.hdbl i hiN (Or.inr hpc)
          rw [hx] at hca
          exact Option.noConfusion hca
        · have hci : inCrit (s.callers i) = true := by rw [hpc]; rfl
          have hcj : inCrit (s.callers j) = true := by rw [hw2]; rfl
          have hij := h.huniq j hj i hiN hcj hci
          rw [hij, hpc] at hw2
          exact PC.noConfusion hw2
      refine ⟨h.hl1, h.hl2, h.hl2l1, ?_, ?_, ?_, ?_, ?_, ?_, ?_, ?_, ?_⟩ <;> dsimp only
      · intro hlf
        have hx := h.hlock hlf i hiN
        rw [hpc] at hx
        exact absurd hx (by simp [inCrit])
      · exact uniq_update_stayCrit _ _ _ _ hiN h.huniq (by rw [hpc]; rfl)
      · intro j hj hc
        rcases eq_or_ne j i with rfl | hne
        · rw [Function.update_same] at hc
          rcases hc with hc | hc <;> exact PC.noConfusion hc
        · rw [Function.update_noteq hne] at hc
          exact h.hdbl j hj hc
      · intro j hj w2 hw2
        rcases eq_or_ne j i with rfl | hne
        · rw [Function.update_same] at hw2
          rcases hw2 with hw2 | hw2
          · injection hw2 with he
            exact he.symm
          · exact PC.noConfusion hw2
        · rw [Function.update_noteq hne] at hw2
          exact h.hstv j hj w2 hw2
      · intro j hj w2 hw2
        rcases eq_or_ne j i with rfl | hne
        · rw [Function.update_same] at hw2
          exact PC.noConfusion hw2
        · rw [Function.update_noteq hne] at hw2
          exact h.hst2 j hj w2 hw2
      · omega
      · intro hz0
        exact absurd hz0 (by omega)
      · intro _
        exact Or.inr ⟨i, hiN, v, Function.update_same i (PC.storeL1 v) s.callers⟩
      · intro j hj r hr
        rcases eq_or_ne j i with rfl | hne
        · rw [Function.update_same] at hr
          exact PC.noConfusion hr
        · rw [Function.update_noteq hne] at hr
          exact h.hdn j hj r hr
  | storeL1 w =>
      rw [hpc] at hsc
      simp [stepCaller] at hsc
      obtain ⟨rfl, rfl⟩ := hsc
      have hwv : w = v := h.hstv i hiN w (Or.inl hpc)
      refine ⟨?_, h.hl2, ?_, ?_, ?_, ?_, ?_, ?_, h.hle, ?_, ?_, ?_⟩ <;> dsimp only
      · intro w2 hw2
        injection hw2 with he
        rw [← he]
        exact hwv
      · intro w2 _
        exact congrArg some hwv
      · intro hlf
        have hx := h.hlock hlf i hiN
        rw [hpc] at hx
        exact absurd hx (by simp [inCrit])
      · exact uniq_update_stayCrit _ _ _ _ hiN h.huniq (by rw [hpc]; rfl)
      · intro j hj hc
        rcases eq_or_ne j i with rfl | hne
        · rw [Function.update_same] at hc
          rcases hc with hc | hc <;> exact PC.noConfusion hc
        · rw [Function.update_noteq hne] at hc
          have hcj : inCrit (s.callers j) = true := by
            rcases hc with hc | hc <;> rw [hc] <;> rfl
          have hci : inCrit (s.callers i) = true := by rw [hpc]; rfl
          exact absurd (h.huniq j hj i hiN hcj hci) hne
      · intro j hj w2 hw2
        rcases eq_or_ne j i with rfl | hne
        · rw [Function.update_same] at hw2
          rcases hw2 with hw2 | hw2
          · exact PC.noConfusion hw2
          · injection hw2 with he
            rw [← he]
            exact hwv
        · rw [Function.update_noteq hne] at hw2
          exact h.hstv j hj w2 hw2
      · intro _ _ _ _
        exact congrArg some hwv
      · intro h0
        have hx := (h.hz h0).2 i hiN
        rw [hpc] at hx
        exact absurd hx (by simp [preStore])
      · intro _
        exact Or.inl (congrArg some hwv)
      · intro j hj r hr
        rcases eq_or_ne j i with rfl | hne
        · rw [Function.update_same] at hr
          exact PC.noConfusion hr
        · rw [Function.update_noteq hne] at hr
          exact h.hdn j hj r hr
  | storeL2 w =>
      rw [hpc] at hsc
      have hwv : w = v := h.hstv i hiN w (Or.inr hpc)
      have hol1 : s.g.l1 = some v := h.hst2 i hiN w hpc
      by_cases httl : adjustTtlForPressure env.level env.baseTtl = 0
      · simp [stepCaller, httl] at hsc
        obtain ⟨rfl, rfl⟩ := hsc
        exact invA_step_doneExit env v N h i hiN w hwv _ hol1 hol1 h.hl2
          (fun _ j hj hne => by
            cases hcj : inCrit (s.callers j) with
            | false => rfl
            | true =>
                exact absurd (h.huniq j hj i hiN hcj (by rw [hpc]; rfl)) hne)
          rfl
      · simp [stepCaller, httl] at hsc
        obtain ⟨rfl, rfl⟩ := hsc
        exact invA_step_doneExit env v N h i hiN w hwv _ hol1 hol1
          (fun w2 hw2 => by
            injection hw2 with he
            exact he ▸ hwv)
          (fun _ j hj hne => by
            cases hcj : inCrit (s.callers j) with
            | false => rfl
            | true =>
                exact absurd (h.huniq j hj i hiN hcj (by rw [hpc]; rfl)) hne)
          rfl
  | done r =>
      rw [hpc] at hsc
      simp [stepCaller] at hsc

theorem invA_reach (env : MEnv) (v : Val) (N : Nat)
    (hlvl : env.level < 10) (hv : env.loaderVal = some v)
    {s : MState} (hreach : MReach env N s) : InvA env v N s := by
  induction hreach with
  | refl => exact invA_init env v N
  | tail _ hstep ih => exact invA_step env v N hlvl hv ih hstep

/-- C1: for a key absent from both tiers whose loader returns a
non-absent value, any cooperative interleaving of `N ≥ 1` logically
concurrent `get(k, loader)` calls at pressure level 0-9 (all callers
sharing the one per-key lock of `_get_lock_for_key`, no eviction from
the lock registry) that runs every caller to completion invokes the
loader exactly once, and every caller returns that same value. -/
theorem c1_single_flight (env : MEnv) (N : Nat) (v : Val) (s : MState)
    (hlvl : env.level < 10) (hv : env.loaderVal = some v) (hN : 0 < N)
    (hreach : MReach env N s)
    (hdone : ∀ i, i < N → ∃ r, s.callers i = PC.done r) :
    s.g.loads = 1 ∧ ∀ i, i < N → s.callers i = PC.done (some v) := by
  have hinv : InvA env v N s := invA_reach env v N hlvl hv hreach
  constructor
  · obtain ⟨r0, hr0⟩ := hdone 0 hN
    have hnz : s.g.loads ≠ 0 := by
      intro h0
      have hx := (hinv.hz h0).2 0 hN
      rw [hr0] at hx
      exact absurd hx (by simp [preStore])
    have hle := hinv.hle
    omega
  · intro i hi
    obtain ⟨r, hr⟩ := hdone i hi
    rw [hr, hinv.hdn i hi r hr]

def c1Env : MEnv := ⟨0, 300, some (.vnat 7)⟩

def c1s1 : MState := ⟨Function.update initM.callers 0 .checkL2, ⟨none, none, false, 0, 0⟩⟩

def c1s2 : MState := ⟨Function.update c1s1.callers 0 .pressure, ⟨none, none, false, 0, 0⟩⟩

def c1s3 : MState := ⟨Function.update c1s2.callers 0 .waitLock, ⟨none, none, false, 0, 0⟩⟩

def c1s4 : MState := ⟨Function.update c1s3.callers 0 .dblL1, ⟨none, none, true, 0, 0⟩⟩

def c1s5 : MState := ⟨Function.update c1s4.callers 0 .dblL2, ⟨none, none, true, 0, 0⟩⟩

def c1s6 : MState := ⟨Function.update c1s5.callers 0 .load, ⟨none, none, true, 0, 0⟩⟩

def c1s7 : MState :=
  ⟨Function.update c1s6.callers 0 (.storeL1 (.vnat 7)), ⟨none, none, true, 1, 0⟩⟩

def c1s8 : MState :=
  ⟨Function.update c1s7.callers 0 (.storeL2 (.vnat 7)), ⟨some (.vnat 7), none, true, 1, 0⟩⟩

def c1s9 : MState :=
  ⟨Function.update c1s8.callers 0 (.done (some (.vnat 7))),
   ⟨some (.vnat 7), some (.vnat 7), false, 1, 0⟩⟩

theorem c1_single_flight_witness :
    c1s9.g.loads = 1 ∧ c1s9.callers 0 = PC.done (some (.vnat 7)) := by
  have hr : MReach c1Env 1 c1s9 := by
    have h1 : MStep c1Env 1 initM c1s1 :=
      ⟨0, by decide, (.checkL2, ⟨none, none, false, 0, 0⟩), rfl, rfl⟩
    have h2 : MStep c1Env 1 c1s1 c1s2 :=
      ⟨0, by decide, (.pressure, ⟨none, none, false, 0, 0⟩), rfl, rfl⟩
    have h3 : MStep c1Env 1 c1s2 c1s3 :=
      ⟨0, by decide, (.waitLock, ⟨none, none, false, 0, 0⟩), rfl, rfl⟩
    have h4 : MStep c1Env 1 c1s3 c1s4 :=
      ⟨0, by decide, (.dblL1, ⟨none, none, true, 0, 0⟩), rfl, rfl⟩
    have h5 : MStep c1Env 1 c1s4 c1s5 :=
      ⟨0, by decide, (.dblL2, ⟨none, none, true, 0, 0⟩), rfl, rfl⟩
    have h6 : MStep c1Env 1 c1s5 c1s6 :=
      ⟨0, by decide, (.load, ⟨none, none, true, 0, 0⟩), rfl, rfl⟩
    have h7 : MStep c1Env 1 c1s6 c1s7 :=
      ⟨0, by decide, (.storeL1 (.vnat 7), ⟨none, none, true, 1, 0⟩), rfl, rfl⟩
    have h8 : MStep c1Env 1 c1s7 c1s8 :=
      ⟨0, by decide, (.storeL2 (.vnat 7), ⟨some (.vnat 7), none, true, 1, 0⟩), rfl, rfl⟩
    have h9 : MStep c1Env 1 c1s8 c1s9 :=
      ⟨0, by decide, (.done (some (.vnat 7)), ⟨some (.vnat 7), some (.vnat 7), false, 1, 0⟩),
        rfl, rfl⟩
    exact .tail (.tail (.tail (.tail (.tail (.tail (.tail (.tail (.tail .refl h1)
      h2) h3) h4) h5) h6) h7) h8) h9
  have hdone : ∀ i, i < 1 → ∃ r, c1s9.callers i = PC.done r := by
    intro i hi
    have hz : i = 0 := Nat.lt_one_iff.mp hi
    subst hz
    exact ⟨some (.vnat 7), rfl⟩
  have h := c1_single_flight c1Env 1 (.vnat 7) c1s9 (by decide) rfl (by decide) hr hdone
  exact ⟨h.1, h.2 0 (by decide)⟩

/-- Indicator of a finished caller. -/
def doneInd : PC → Nat
  | .done _ => 1
  | _ => 0

/-- Number of finished callers among the first `n`. -/
def countDone (f : Nat → PC) : Nat → Nat
  | 0 => 0
  | n + 1 => countDone f n + doneInd (f n)

theorem countDone_congr (f g : Nat → PC) (n : Nat) (h : ∀ j, j < n → f j = g j) :
    countDone f n = countDone g n := by
  induction n with
  | zero => rfl
  | succ n ih =>
      simp only [countDone]
      rw [ih (fun j hj => h j (Nat.lt_succ_of_lt hj)), h n (Nat.lt_succ_self n)]

theorem countDone_update (f : Nat → PC) (n i : Nat) (hi : i < n) (a : PC) :
    countDone (Function.update f i a) n + doneInd (f i) = countDone f n + doneInd a := by
  induction n with
  | zero => exact absurd hi (Nat.not_lt_zero i)
  | succ n ih =>
      by_cases hin : i = n
      · subst hin
        have hc : countDone (Function.update f i a) i = countDone f i :=
          countDone_congr _ _ i (fun j hj => Function.update_noteq (Nat.ne_of_lt hj) a f)
        simp only [countDone]
        rw [Function.update_same, hc]
        omega
      · have hi2 : i < n := by omega
        have := ih hi2
        simp only [countDone]
        rw [Function.update_noteq (Ne.symm hin)]
        omega

theorem countDone_all (f : Nat → PC) (n : Nat) (h : ∀ j, j < n → doneInd (f j) = 1) :
    countDone f n = n := by
  induction n with
  | zero => rfl
  | succ n ih =>
      simp only [countDone]
      rw [ih (fun j hj => h j (Nat.lt_succ_of_lt hj)), h n (Nat.lt_succ_self n)]

theorem countDone_init (n : Nat) : countDone (fun _ => PC.checkL1) n = 0 := by
  induction n with
  | zero => rfl
  | succ n ih => simp [countDone, ih, doneInd]

/-- Inductive invariant of the emergency-bypass scenario (pressure
level 10): the tiers stay empty, the per-key lock is never touched,
and both the loader-invocation count and the `pressure_skips` growth
equal the number of finished callers. -/
structure InvB (env : MEnv) (N : Nat) (s : MState) : Prop where
  b1 : s.g.l1 = none
  b2 : s.g.l2 = none
  b3 : s.g.lock = false
  b4 : ∀ i, i < N → s.callers i = .checkL1 ∨ s.callers i = .checkL2 ∨
        s.callers i = .pressure ∨ s.callers i = .done env.loaderVal
  b5 : s.g.loads = countDone s.callers N
  b6 : s.g.skips = countDone s.callers N

theorem invB_init (env : MEnv) (N : Nat) : InvB env N initM := by
  refine ⟨rfl, rfl, rfl, ?_, ?_, ?_⟩
  · intro i _
    exact Or.inl rfl
  · exact (countDone_init N).symm
  · exact (countDone_init N).symm

theorem invB_step (env : MEnv) (N : Nat) (hlvl : 10 ≤ env.level)
    {s t : MState} (h : InvB env N s) (hs : MStep env N s t) : InvB env N t := by
  obtain ⟨i, hiN, ⟨pc2, g2⟩, hsc, rfl⟩ := hs
  rcases h.b4 i hiN with hpc | hpc | hpc | hpc
  · rw [hpc] at hsc
    simp [stepCaller, h.b1] at hsc
    obtain ⟨rfl, rfl⟩ := hsc
    have hcd := countDone_update s.callers N i hiN .checkL2
    rw [hpc] at hcd
    refine ⟨h.b1, h.b2, h.b3, ?_, ?_, ?_⟩ <;> dsimp only
    · intro j hj
      rcases eq_or_ne j i with rfl | hne
      · rw [Function.update_same]
        exact Or.inr (Or.inl rfl)
      · rw [Function.update_noteq hne]
        exact h.b4 j hj
    · have hb := h.b5
      simp only [doneInd] at hcd
      omega
    · have hb := h.b6
      simp only [doneInd] at hcd
      omega
  · rw [hpc] at hsc
    simp [stepCaller, h.b2] at hsc
    obtain ⟨rfl, rfl⟩ := hsc
    have hcd := countDone_update s.callers N i hiN .pressure
    rw [hpc] at hcd
    refine ⟨h.b1, h.b2, h.b3, ?_, ?_, ?_⟩ <;> dsimp only
    · intro j hj
      rcases eq_or_ne j i with rfl | hne
      · rw [Function.update_same]
        exact Or.inr (Or.inr (Or.inl rfl))
      · rw [Function.update_noteq hne]
        exact h.b4 j hj
    · have hb := h.b5
      simp only [doneInd] at hcd
      omega
    · have hb := h.b6
      simp only [doneInd] at hcd
      omega
  · rw [hpc] at hsc
    simp [stepCaller, hlvl] at hsc
    obtain ⟨rfl, rfl⟩ := hsc
    have hcd := countDone_update s.callers N i hiN (.done env.loaderVal)
    rw [hpc] at hcd
    refine ⟨h.b1, h.b2, h.b3, ?_, ?_, ?_⟩ <;> dsimp only
    · intro j hj
      rcases eq_or_ne j i with rfl | hne
      · rw [Function.update_same]
        exact Or.inr (Or.inr (Or.inr rfl))
      · rw [Function.update_noteq hne]
        exact h.b4 j hj
    · have hb := h.b5
      simp only [doneInd] at hcd
      omega
    · have hb := h.b6
      simp only [doneInd] at hcd
      omega
  · rw [hpc] at hsc
    simp [stepCaller] at hsc

theorem invB_reach (env : MEnv) (N : Nat) (hlvl : 10 ≤ env.level)
    {s : MState} (hreach : MReach env N s) : InvB env N s := by
  induction hreach with
  | refl => exact invB_init env N
  | tail _ hstep ih => exact invB_step env N hlvl ih hstep

/-- C3: when both tiers miss and the monitor reports level 10, every
caller of `get(key, loader)` increments `pressure_skips`, invokes the
loader itself (once per caller), returns its result, never touches the
per-key lock, and writes nothing into either tier: any completed
cooperative interleaving of `N` callers ends with `N` loader
invocations, `pressure_skips` grown by `N`, both tiers still empty and
the lock never held. -/
theorem c3_emergency_bypass (env : MEnv) (N : Nat) (s : MState)
    (hlvl : 10 ≤ env.level)
    (hreach : MReach env N s)
    (hdone : ∀ i, i < N → ∃ r, s.callers i = PC.done r) :
    s.g.loads = N ∧ s.g.skips = N ∧ s.g.l1 = none ∧ s.g.l2 = none ∧
      s.g.lock = false ∧ ∀ i, i < N → s.callers i = PC.done env.loaderVal := by
  have hinv : InvB env N s := invB_reach env N hlvl hreach
  have hall : ∀ i, i < N → s.callers i = PC.done env.loaderVal := by
    intro i hi
    obtain ⟨r, hr⟩ := hdone i hi
    rcases hinv.b4 i hi with hpc | hpc | hpc | hpc
    · rw [hr] at hpc
      exact PC.noConfusion hpc
    · rw [hr] at hpc
      exact PC.noConfusion hpc
    · rw [hr] at hpc
      exact PC.noConfusion hpc
    · exact hpc
  have hcnt : countDone s.callers N = N :=
    countDone_all _ _ (fun j hj => by rw [hall j hj]; rfl)
  exact ⟨by rw [hinv.b5, hcnt], by rw [hinv.b6, hcnt], hinv.b1, hinv.b2, hinv.b3, hall⟩

def c3Env : MEnv := ⟨10, 300, some (.vnat 5)⟩

def c3s1 : MState := ⟨Function.update initM.callers 0 .checkL2, ⟨none, none, false, 0, 0⟩⟩

def c3s2 : MState := ⟨Function.update c3s1.callers 0 .pressure, ⟨none, none, false, 0, 0⟩⟩

def c3s3 : MState :=
  ⟨Function.update c3s2.callers 0 (.done (some (.vnat 5))), ⟨none, none, false, 1, 1⟩⟩

theorem c3_emergency_bypass_witness :
    c3s3.g.loads = 1 ∧ c3s3.g.skips = 1 ∧ c3s3.g.l1 = none ∧ c3s3.g.l2 = none ∧
      c3s3.g.lock = false ∧ c3s3.callers 0 = PC.done (some (.vnat 5)) := by
  have hr : MReach c3Env 1 c3s3 := by
    have h1 : MStep c3Env 1 initM c3s1 :=
      ⟨0, by decide, (.checkL2, ⟨none, none, false, 0, 0⟩), rfl, rfl⟩
    have h2 : MStep c3Env 1 c3s1 c3s2 :=
      ⟨0, by decide, (.pressure, ⟨none, none, false, 0, 0⟩), rfl, rfl⟩
    have h3 : MStep c3Env 1 c3s2 c3s3 :=
      ⟨0, by decide, (.done (some (.vnat 5)), ⟨none, none, false, 1, 1⟩), rfl, rfl⟩
    exact .tail (.tail (.tail .refl h1) h2) h3
  have hdone : ∀ i, i < 1 → ∃ r, c3s3.callers i = PC.done r := by
    intro i hi
    have hz : i = 0 := Nat.lt_one_iff.mp hi
    subst hz
    exact ⟨some (.vnat 5), rfl⟩
  have h := c3_emergency_bypass c3Env 1 c3s3 (by decide) hr hdone
  exact ⟨h.1, h.2.1, h.2.2.1, h.2.2.2.1, h.2.2.2.2.1, h.2.2.2.2.2 0 (by decide)⟩

theorem adjust_pos (L b : Nat) (hb : 1 ≤ b) (hL : L < 9) :
    adjustTtlForPressure L b ≠ 0 := by
  unfold adjustTtlForPressure
  split_ifs <;> omega

theorem setOp_l1 (cfg : Settings) (env : OpEnv) (st : CacheState)
    (key : String) (v : Val) (l2ttl : Option Nat) :
    alookup (setOp cfg env st key v l2ttl).1.l1 (l1Key cfg key) = some v := by
  rcases hs : serialize v with _ | data <;>
    simp [setOp, setBothLayers, hs] <;>
    split_ifs <;>
    simp [alookup_aset_self]

/-- An empty cache-layer state: both tiers empty, all counters 0. -/
def emptyState : CacheState := ⟨[], [], 0, 0, 0, 0, 0⟩

/-- C2: the effective TTL of a shared-tier write is the pure function
of the base TTL `b` and pressure level `L` computed by
`_adjust_ttl_for_pressure`: `L ≥ 9` yields 0, which makes
`_set_both_layers` skip the shared-tier write entirely (counting a
pressure skip); `7 ≤ L < 9` yields `min b 60`; `5 ≤ L < 7` yields
`max (floor (b * 0.8)) 1`; `L < 5` yields `b`; and for `L < 9` the
shared-tier entry is actually written with that effective TTL as its
expiry. -/
theorem c2_ttl_bands (b L : Nat) (hb : 1 ≤ b)
    (cfg : Settings) (env : OpEnv) (st : CacheState) (key : String) (v : Val)
    (l2ttl : Option Nat) (data : String)
    (hL : env.level = L)
    (hbase : ttlOrDefault l2ttl cfg.l2_ttl_seconds = b)
    (hr : env.redisPresent = true)
    (hdata : serialize v = some data)
    (hok : env.redisSetFails = false) :
    (9 ≤ L → adjustTtlForPressure L b = 0 ∧
      (setBothLayers cfg env st key v l2ttl).1.l2 = st.l2 ∧
      (setBothLayers cfg env st key v l2ttl).1.pressure_skips = st.pressure_skips + 1) ∧
    (7 ≤ L → L < 9 → adjustTtlForPressure L b = min b 60) ∧
    (5 ≤ L → L < 7 → adjustTtlForPressure L b = max (b * 4 / 5) 1) ∧
    (L < 5 → adjustTtlForPressure L b = b) ∧
    (L < 9 → alookup (setBothLayers cfg env st key v l2ttl).1.l2 (l2Key cfg key)
        = some (data, adjustTtlForPressure L b)) := by
  refine ⟨?_, ?_, ?_, ?_, ?_⟩
  · intro h9
    have ht : adjustTtlForPressure L b = 0 := by
      unfold adjustTtlForPressure
      rw [if_pos h9]
    refine ⟨ht, ?_, ?_⟩ <;> simp [setBothLayers, hr, hL, hbase, ht]
  · intro h7 h9
    unfold adjustTtlForPressure
    rw [if_neg (by omega), if_pos h7]
  · intro h5 h7
    unfold adjustTtlForPressure
    rw [if_neg (by omega), if_neg (by omega), if_pos h5]
  · intro h5
    unfold adjustTtlForPressure
    rw [if_neg (by omega), if_neg (by omega), if_neg (by omega)]
  · intro h9
    have hne := adjust_pos L b hb h9
    simp [setBothLayers, hr, hL, hbase, hne, hdata, hok, alookup_aset_self]

theorem c2_ttl_bands_witness :
    adjustTtlForPressure 3 300 = 300 ∧
    alookup (setBothLayers {} ⟨true, 3, false, false, false⟩ emptyState "k" (.vnat 7)
        none).1.l2 (l2Key {} "k") = some ("7", adjustTtlForPressure 3 300) := by
  have h := c2_ttl_bands 300 3 (by decide) {} ⟨true, 3, false, false, false⟩ emptyState
    "k" (.vnat 7) none "7" rfl rfl rfl rfl rfl
  exact ⟨h.2.2.2.1 (by decide), h.2.2.2.2 (by decide)⟩

/-- C6: `delete(k)` removes `k` from the Local Tier unconditionally and
from the Shared Tier whenever the backend call succeeds; the pressure
level is never consulted (the result is identical at every level,
including 9 and 10); a backend failure during the shared-tier delete is
caught and counted in `errors`, not propagated (`deleteOp` returns a
state, never an exception). -/
theorem c6_delete_unconditional (cfg : Settings) (env : OpEnv) (st : CacheState)
    (key : String) :
    alookup (deleteOp cfg env st key).l1 (l1Key cfg key) = none ∧
    (env.redisPresent = true → env.redisDelFails = false →
      alookup (deleteOp cfg env st key).l2 (l2Key cfg key) = none) ∧
    (env.redisPresent = true → env.redisDelFails = true →
      (deleteOp cfg env st key).errors = st.errors + 1 ∧
      (deleteOp cfg env st key).l1 = aerase st.l1 (l1Key cfg key)) ∧
    (∀ lvl1 lvl2, deleteOp cfg { env with level := lvl1 } st key
        = deleteOp cfg { env with level := lvl2 } st key) := by
  refine ⟨?_, ?_, ?_, ?_⟩
  · unfold deleteOp
    split_ifs <;> simp [alookup_aerase_self]
  · intro hr hf
    simp [deleteOp, hr, hf, alookup_aerase_self]
  · intro hr hf
    simp [deleteOp, hr, hf]
  · intro lvl1 lvl2
    rfl

theorem c6_delete_unconditional_witness :
    alookup (deleteOp {} ⟨true, 10, false, false, false⟩
        ⟨[(l1Key {} "k", .vnat 3)], [(l2Key {} "k", ("3", 60))], 0, 0, 0, 0, 0⟩ "k").l1
        (l1Key {} "k") = none ∧
    alookup (deleteOp {} ⟨true, 10, false, false, false⟩
        ⟨[(l1Key {} "k", .vnat 3)], [(l2Key {} "k", ("3", 60))], 0, 0, 0, 0, 0⟩ "k").l2
        (l2Key {} "k") = none := by
  have h := c6_delete_unconditional {} ⟨true, 10, false, false, false⟩
    ⟨[(l1Key {} "k", .vnat 3)], [(l2Key {} "k", ("3", 60))], 0, 0, 0, 0, 0⟩ "k"
  exact ⟨h.1, h.2.1 rfl rfl⟩

/-- C7: `set` always writes the Local Tier; a shared-tier backend write
failure is caught, counted in `errors`, and `set` returns normally; a
serialization failure — whenever the shared-tier write is actually
attempted (backend present, effective TTL non-zero) — propagates to the
caller of `set`. -/
theorem c7_set_error_handling (cfg : Settings) (env : OpEnv) (st : CacheState)
    (key : String) (v : Val) (l2ttl : Option Nat) :
    alookup (setOp cfg env st key v l2ttl).1.l1 (l1Key cfg key) = some v ∧
    (∀ data, env.redisPresent = true → serialize v = some data →
      env.redisSetFails = true →
      adjustTtlForPressure env.level (ttlOrDefault l2ttl cfg.l2_ttl_seconds) ≠ 0 →
      (setOp cfg env st key v l2ttl).2 = .ok () ∧
      (setOp cfg env st key v l2ttl).1.errors = st.errors + 1) ∧
    (env.redisPresent = true → serialize v = none →
      adjustTtlForPressure env.level (ttlOrDefault l2ttl cfg.l2_ttl_seconds) ≠ 0 →
      (setOp cfg env st key v l2ttl).2 = .error ()) := by
  refine ⟨setOp_l1 cfg env st key v l2ttl, ?_, ?_⟩
  · intro data hr hs hf hne
    constructor <;> simp [setOp, setBothLayers, hr, hs, hf, hne]
  · intro hr hs hne
    simp [setOp, setBothLayers, hr, hs, hne]

theorem c7_set_error_handling_witness :
    alookup (setOp {} ⟨true, 0, false, true, false⟩ emptyState "k" (.vnat 7)
        none).1.l1 (l1Key {} "k") = some (.vnat 7) ∧
    (setOp {} ⟨true, 0, false, true, false⟩ emptyState "k" (.vnat 7) none).2 = .ok () ∧
    (setOp {} ⟨true, 0, false, true, false⟩ emptyState "k" (.vnat 7) none).1.errors = 1 ∧
    (setOp {} ⟨true, 0, false, false, false⟩ emptyState "k" .vbad none).2 = .error () := by
  have h1 := c7_set_error_handling {} ⟨true, 0, false, true, false⟩ emptyState "k"
    (.vnat 7) none
  have h2 := c7_set_error_handling {} ⟨true, 0, false, false, false⟩ emptyState "k"
    .vbad none
  have hb := h1.2.1 "7" rfl rfl rfl (by decide)
  exact ⟨h1.1, hb.1, hb.2, h2.2.2 rfl rfl (by decide)⟩

/-- C8: `set(k, v)` immediately followed by `get(k, loader)` (no
intervening operation, eviction or expiry — the embedded Local Tier
does not expire) returns `v` as a Local Tier hit: `l1_hits` is
incremented, the loader is not invoked and the per-key lock is not
used, at every pressure level and backend behaviour of either call. -/
theorem c8_set_then_get (cfg : Settings) (envS envG : OpEnv) (st : CacheState)
    (key : String) (v : Val) (l2ttlS l2ttlG : Option Nat)
    (hasLoader : Bool) (loaderVal : Option Val) :
    (getOp cfg envG (setOp cfg envS st key v l2ttlS).1 key hasLoader loaderVal
        l2ttlG).res = .ok (some v) ∧
    (getOp cfg envG (setOp cfg envS st key v l2ttlS).1 key hasLoader loaderVal
        l2ttlG).loaderCalls = 0 ∧
    (getOp cfg envG (setOp cfg envS st key v l2ttlS).1 key hasLoader loaderVal
        l2ttlG).state.l1_hits = (setOp cfg envS st key v l2ttlS).1.l1_hits + 1 ∧
    (getOp cfg envG (setOp cfg envS st key v l2ttlS).1 key hasLoader loaderVal
        l2ttlG).lockUsed = false := by
  have hl1 := setOp_l1 cfg envS st key v l2ttlS
  refine ⟨?_, ?_, ?_, ?_⟩ <;> simp [getOp, hl1]

/-- C9: `set` is not atomic on serialization error: the Local Tier
write precedes serialization for the shared tier, so whenever `set`
raises a serialization error the Local Tier already holds the value,
and a subsequent `get` returns it as a Local Tier hit without invoking
the loader. -/
theorem c9_set_nonatomic (cfg : Settings) (envS envG : OpEnv) (st : CacheState)
    (key : String) (v : Val) (l2ttlS l2ttlG : Option Nat)
    (hasLoader : Bool) (loaderVal : Option Val)
    (hraise : (setOp cfg envS st key v l2ttlS).2 = .error ()) :
    alookup (setOp cfg envS st key v l2ttlS).1.l1 (l1Key cfg key) = some v ∧
    (getOp cfg envG (setOp cfg envS st key v l2ttlS).1 key hasLoader loaderVal
        l2ttlG).res = .ok (some v) ∧
    (getOp cfg envG (setOp cfg envS st key v l2ttlS).1 key hasLoader loaderVal
        l2ttlG).loaderCalls = 0 ∧
    (getOp cfg envG (setOp cfg envS st key v l2ttlS).1 key hasLoader loaderVal
        l2ttlG).state.l1_hits = (setOp cfg envS st key v l2ttlS).1.l1_hits + 1 := by
  have hl1 := setOp_l1 cfg envS st key v l2ttlS
  refine ⟨hl1, ?_, ?_, ?_⟩ <;> simp [getOp, hl1]

theorem c9_set_nonatomic_witness :
    alookup (setOp {} ⟨true, 0, false, false, false⟩ emptyState "k" .vbad
        none).1.l1 (l1Key {} "k") = some .vbad ∧
    (getOp {} ⟨true, 0, false, false, false⟩
        (setOp {} ⟨true, 0, false, false, false⟩ emptyState "k" .vbad none).1 "k"
        true (some (.vnat 1)) none).res = .ok (some .vbad) ∧
    (getOp {} ⟨true, 0, false, false, false⟩
        (setOp {} ⟨true, 0, false, false, false⟩ emptyState "k" .vbad none).1 "k"
        true (some (.vnat 1)) none).loaderCalls = 0 ∧
    (getOp {} ⟨true, 0, false, false, false⟩
        (setOp {} ⟨true, 0, false, false, false⟩ emptyState "k" .vbad none).1 "k"
        true (some (.vnat 1)) none).state.l1_hits
      = (setOp {} ⟨true, 0, false, false, false⟩ emptyState "k" .vbad none).1.l1_hits
          + 1 :=
  c9_set_nonatomic {} ⟨true, 0, false, false, false⟩ ⟨true, 0, false, false, false⟩
    emptyState "k" .vbad none none true (some (.vnat 1)) rfl

/-- C10: a `ttl_override` of 0 is falsy in the idiom
`l2_ttl or self._settings.l2_ttl_seconds`, so it selects the configured
default exactly like `None` does, for both `set` and `get`; the
configured default `l2_ttl_seconds` is 300. -/
theorem c10_zero_override (d : Nat) (cfg : Settings) (env : OpEnv) (st : CacheState)
    (key : String) (v : Val) (hasLoader : Bool) (loaderVal : Option Val) :
    ttlOrDefault (some 0) d = d ∧
    ttlOrDefault none d = d ∧
    ({} : Settings).l2_ttl_seconds = 300 ∧
    setBothLayers cfg env st key v (some 0) = setBothLayers cfg env st key v none ∧
    getOp cfg env st key hasLoader loaderVal (some 0)
        = getOp cfg env st key hasLoader loaderVal none := by
  have hsb : ∀ st2 v2, setBothLayers cfg env st2 key v2 (some 0)
      = setBothLayers cfg env st2 key v2 none := by
    intro st2 v2
    simp [setBothLayers, ttlOrDefault]
  have hgl : ∀ st2, getLocked cfg env st2 key loaderVal (some 0)
      = getLocked cfg env st2 key loaderVal none := by
    intro st2
    unfold getLocked
    cases alookup st2.l1 (l1Key cfg key) with
    | some v2 => rfl
    | none =>
        cases (if (env.redisPresent && !env.redisGetFails) = true
               then alookup st2.l2 (l2Key cfg key) else none) with
        | some rawTtl => rfl
        | none =>
            cases loaderVal with
            | none => rfl
            | some v2 => simp [hsb]
  refine ⟨rfl, rfl, rfl, hsb st v, ?_⟩
  unfold getOp
  cases alookup st.l1 (l1Key cfg key) with
  | some v2 => rfl
  | none =>
      cases (if (env.redisPresent && !env.redisGetFails) = true
             then alookup st.l2 (l2Key cfg key) else none) with
      | some rawTtl => rfl
      | none =>
          by_cases h3 : hasLoader = false
          · simp [h3]
          · simp [h3, hgl]

theorem scanDeleteGo_none_aux (globMatch : String → Bool) (n : Nat) :
    ∀ store : List (String × (String × Nat)), store.length ≤ n → ∀ i acc,
      scanDeleteGo globMatch none i store acc =
        (store.filter (fun e => !(globMatch e.1)),
         acc + (store.filter (fun e => globMatch e.1)).length, false) := by
  induction n with
  | zero =>
      intro store hlen i acc
      have hst : store = [] := List.eq_nil_of_length_eq_zero (Nat.le_zero.mp hlen)
      subst hst
      rw [scanDeleteGo]
      simp
  | succ n ih =>
      intro store hlen i acc
      rw [scanDeleteGo]
      rw [if_neg (by simp)]
      by_cases hrest : store.drop 100 = []
      · rw [dif_pos hrest]
        have hsplit : store.take 100 = store := by
          have h := List.take_append_drop 100 store
          rw [hrest, List.append_nil] at h
          exact h
        rw [hsplit]
      · rw [dif_neg hrest]
        have hlen2 : (store.drop 100).length ≤ n := by
          have h1 : (store.drop 100).length = store.length - 100 :=
            List.length_drop 100 store
          have h3 : 0 < (store.drop 100).length := List.length_pos.mpr hrest
          omega
        dsimp only
        rw [ih (store.drop 100) hlen2 (i + 1)
          (acc + ((store.take 100).filter (fun e => globMatch e.1)).length)]
        have hfilt : ∀ p : (String × (String × Nat)) → Bool,
            (store.take 100).filter p ++ (store.drop 100).filter p = store.filter p := by
          intro p
          rw [← List.filter_append, List.take_append_drop]
        have hcnt : ((store.take 100).filter (fun e => globMatch e.1)).length
            + ((store.drop 100).filter (fun e => globMatch e.1)).length
            = (store.filter (fun e => globMatch e.1)).length := by
          rw [← List.length_append, hfilt]
        refine Prod.ext ?_ (Prod.ext ?_ rfl)
        · exact hfilt _
        · dsimp only
          omega

theorem scanDeleteGo_none (globMatch : String → Bool)
    (store : List (String × (String × Nat))) (i acc : Nat) :
    scanDeleteGo globMatch none i store acc =
      (store.filter (fun e => !(globMatch e.1)),
       acc + (store.filter (fun e => globMatch e.1)).length, false) :=
  scanDeleteGo_none_aux globMatch store.length store le_rfl i acc

/-- Shared-tier contents for the `delete_pattern` scenario: one entry
matching the pattern, one not. -/
def c4store : List (String × (String × Nat)) :=
  [("appcache:l2:task:1", ("1", 300)), ("appcache:l2:other", ("2", 60))]

/-- The backend matcher for the namespaced pattern of the scenario. -/
def c4match : String → Bool := fun k => k == "appcache:l2:task:1"

/-- C4 is false as stated: `delete_pattern` has no `return` statement
on any path, so the coroutine returns None; here exactly one
shared-tier key matches the pattern, yet the returned value is not that
count (it is not an integer at all). -/
theorem c4_counterexample :
    (deletePatternOp ⟨true, none⟩ c4match c4store).retval = none ∧
    (c4store.filter (fun e => c4match e.1)).length = 1 ∧
    (deletePatternOp ⟨true, none⟩ c4match c4store).retval ≠
      some (c4store.filter (fun e => c4match e.1)).length := by
  have h := scanDeleteGo_none c4match c4store 0 0
  refine ⟨?_, by decide, ?_⟩ <;> simp [deletePatternOp, h]

/-- C4 (amended): `delete_pattern(p)` deletes every matching
shared-tier key present at call time (none is left behind,
non-matching entries are untouched) and accumulates an internal
`deleted_count` equal to the number of matching keys, but that count is
only logged: the function returns None on every path.  A failure
mid-scan is caught and counted in `errors` — it does not raise — and
the call still returns None (not the accumulated count). -/
theorem c4_delete_pattern_amended (env : PatEnv) (globMatch : String → Bool)
    (store : List (String × (String × Nat)))
    (hr : env.redisPresent = true) :
    (env.failAt = none →
      (deletePatternOp env globMatch store).store
          = store.filter (fun e => !(globMatch e.1)) ∧
      (deletePatternOp env globMatch store).counted
          = (store.filter (fun e => globMatch e.1)).length ∧
      (deletePatternOp env globMatch store).errorsInc = 0 ∧
      (deletePatternOp env globMatch store).retval = none) ∧
    ((scanDeleteGo globMatch env.failAt 0 store 0).2.2 = true →
      (deletePatternOp env globMatch store).errorsInc = 1 ∧
      (deletePatternOp env globMatch store).retval = none) := by
  constructor
  · intro hf
    have h := scanDeleteGo_none globMatch store 0 0
    simp [deletePatternOp, hr, hf, h]
  · intro hflag
    simp [deletePatternOp, hr, hflag]

theorem c4_delete_pattern_amended_witness :
    (deletePatternOp ⟨true, none⟩ c4match c4store).store
        = [("appcache:l2:other", ("2", 60))] ∧
    (deletePatternOp ⟨true, none⟩ c4match c4store).counted = 1 ∧
    (deletePatternOp ⟨true, none⟩ c4match c4store).retval = none := by
  have h := (c4_delete_pattern_amended ⟨true, none⟩ c4match c4store rfl).1 rfl
  refine ⟨?_, ?_, h.2.2.2⟩
  · rw [h.1]
    decide
  · rw [h.2.1]
    decide

/-- C5 is false as stated: after a failed backend query neither
`_cached` nor `_last_check` is updated, so a `check()` one second after
the failed query (refresh interval 5 seconds) issues another backend
query instead of returning a cached snapshot — the monitor can query
the backend more than once per interval when queries fail. -/
theorem c5_counterexample :
    (guardCheck 5 ⟨0, none⟩ 10 none).queried = true ∧
    ((11 : Nat) - 10 < 5) ∧
    (guardCheck 5 (guardCheck 5 ⟨0, none⟩ 10 none).state 11
        (some ⟨100, 1000, "allkeys-lru"⟩)).queried = true := by
  decide

/-- C5 (amended): after a `check()` that actually issues a successful
backend query at time `t`, any `check()` at a time `now` with
`now - t < refresh_interval` returns the cached snapshot without a
backend query and leaves the guard state unchanged; a failed query
caches nothing, so the one-query-per-interval bound holds only between
successful queries. -/
theorem c5_refresh_amended (interval : Nat) (st : GuardState) (t now : Nat)
    (info : MemInfo) (backend : Option MemInfo)
    (hq : (guardCheck interval st t (some info)).queried = true)
    (hlt : now - t < interval) :
    (guardCheck interval (guardCheck interval st t (some info)).state now
        backend).queried = false ∧
    (guardCheck interval (guardCheck interval st t (some info)).state now
        backend).state = (guardCheck interval st t (some info)).state ∧
    (guardCheck interval (guardCheck interval st t (some info)).state now
        backend).snap = snapshotOf info := by
  have hstate : (guardCheck interval st t (some info)).state
      = ⟨t, some (snapshotOf info)⟩ := by
    by_cases hc : st.cached.isSome ∧ t - st.lastCheck < interval
    · exfalso
      unfold guardCheck at hq
      rw [if_pos hc] at hq
      simp at hq
    · unfold guardCheck
      rw [if_neg hc]
  have hcond : ((⟨t, some (snapshotOf info)⟩ : GuardState).cached.isSome = true)
      ∧ now - (⟨t, some (snapshotOf info)⟩ : GuardState).lastCheck < interval :=
    ⟨rfl, hlt⟩
  refine ⟨?_, ?_, ?_⟩ <;> rw [hstate] <;> unfold guardCheck <;> rw [if_pos hcond] <;> rfl

theorem c5_refresh_amended_witness :
    (guardCheck 5 (guardCheck 5 ⟨0, none⟩ 10 (some ⟨100, 1000, "allkeys-lru"⟩)).state
        12 none).queried = false ∧
    (guardCheck 5 (guardCheck 5 ⟨0, none⟩ 10 (some ⟨100, 1000, "allkeys-lru"⟩)).state
        12 none).state
      = (guardCheck 5 ⟨0, none⟩ 10 (some ⟨100, 1000, "allkeys-lru"⟩)).state ∧
    (guardCheck 5 (guardCheck 5 ⟨0, none⟩ 10 (some ⟨100, 1000, "allkeys-lru"⟩)).state
        12 none).snap = snapshotOf ⟨100, 1000, "allkeys-lru"⟩ :=
  c5_refresh_amended 5 ⟨0, none⟩ 10 12 ⟨100, 1000, "allkeys-lru"⟩ none (by decide)
    (by decide)

end TwoTier
